import Mathlib

/-!
Shallow embedding of the snuba event-processing core:
 - `snuba/datasets/events_processor_base.py` (row flattening pipeline),
 - `snuba/query/processors/single_tag_expr.py` (nested-attribute query rewriter),
 - `snuba/utils/codecs.py` (pass-through codec).

Dynamic Python payload values are modelled by `PyVal`; rows (Python dicts
used as `MutableMapping[str, Any]`) by association lists where a later
`set` shadows earlier entries, matching dict update/lookup semantics.
Datetimes are modelled by epoch seconds (`Int`); `datetime.strptime` with
`settings.PAYLOAD_DATETIME_FORMAT` is an external stdlib collaborator and
is passed in as a function `String → Option Int` where `none` models the
`ValueError` it raises on a string not matching the format.
-/

/-- Model of a dynamic Python value as found inside the event payload. -/
inductive PyVal where
  | none
  | bool (b : Bool)
  | int (n : Int)
  | str (s : String)
  | list (xs : List PyVal)
  | dict (entries : List (String × PyVal))
deriving Repr

/-- Python `v is None`. -/
def PyVal.isNone : PyVal → Bool
  | .none => true
  | _ => false

/-- Python truthiness (`bool(v)`): None/False/0/""/[]/{} are falsy. -/
def PyVal.truthy : PyVal → Bool
  | .none => false
  | .bool b => b
  | .int n => n != 0
  | .str s => s ≠ ""
  | .list xs => !xs.isEmpty
  | .dict es => !es.isEmpty

/-- Python `v.get(k, None)` on a dict; a missing key gives `None`.  Non-dict
receivers do not occur on the paths exercised here and give `None`. -/
def PyVal.getAttr (v : PyVal) (k : String) : PyVal :=
  match v with
  | .dict es => (es.lookup k).getD .none
  | _ => .none

/-- Python `x or d` for a dict default: the value if truthy, else `d`. -/
def PyVal.orElseVal (v d : PyVal) : PyVal :=
  if v.truthy then v else d

/-- Iterating a Python value as a list; non-list values give `[]`. -/
def PyVal.asList : PyVal → List PyVal
  | .list xs => xs
  | _ => []

/-- Python `int(v)`: `none` models the `ValueError`/`TypeError` raised when
the value cannot be converted to an integer. -/
def PyVal.toIntCast : PyVal → Option Int
  | .int n => some n
  | .bool b => some (if b then 1 else 0)
  | .str s => s.toInt?
  | _ => Option.none

/-- Reading a value that is already expected to be an integer (no cast). -/
def PyVal.asInt : PyVal → Option Int
  | .int n => some n
  | _ => Option.none

/-- A processed row: a mutable string-keyed mapping.  `set` prepends, and
`get` returns the most recent binding, matching dict assignment/lookup. -/
def Row := List (String × PyVal)

def Row.set (r : Row) (k : String) (v : PyVal) : Row := (k, v) :: r

def Row.get (r : Row) (k : String) : Option PyVal :=
  List.lookup k r

def optStrVal : Option String → PyVal
  | Option.none => PyVal.none
  | some s => PyVal.str s

def optIntVal : Option Int → PyVal
  | Option.none => PyVal.none
  | some n => PyVal.int n

def optBoolVal : Option Bool → PyVal
  | Option.none => PyVal.none
  | some b => PyVal.bool b

/-- Modelled from the spec (helper `_unicodify` of `snuba.processor`, not
under `src/`): best-effort scalar coercion — `None` stays absent, scalar
values become their string form, container values (dict/list) are not
representable as a scalar and are dropped (`none`). -/
def _unicodify : PyVal → Option String
  | .none => Option.none
  | .str s => some s
  | .int n => some (toString n)
  | .bool b => some (if b then "True" else "False")
  | .list _ => Option.none
  | .dict _ => Option.none

/-- Modelled from the spec (helper `_boolify` of `snuba.processor`, not
under `src/`): best-effort boolean coercion, `None` when unconvertible. -/
def _boolify : PyVal → Option Bool
  | .bool b => some b
  | .int n => if n = 1 then some true else if n = 0 then some false else Option.none
  | _ => Option.none

/-- Modelled from the spec (helper `_collapse_uint32` of `snuba.processor`,
not under `src/`): collapse a number to the bounded unsigned 32-bit range,
producing nothing if absent or out of range. -/
def _collapse_uint32 : Option Int → Option Int
  | Option.none => Option.none
  | some n => if 0 ≤ n ∧ n ≤ 4294967295 then some n else Option.none

/-- Modelled from the spec (helper `_ensure_valid_date` of
`snuba.processor`, not under `src/`): a parsed date is valid when its epoch
seconds fit the bounded unsigned 32-bit range, otherwise it is rejected. -/
def _ensure_valid_date (d : Int) : Option Int :=
  match _collapse_uint32 (some d) with
  | Option.none => Option.none
  | some _ => some d

/-- Modelled from the spec (helper `_as_dict_safe` of `snuba.processor`,
not under `src/`): safely coerce a payload value into a mapping; malformed
(non-dict) containers degrade to the empty mapping rather than erroring. -/
def _as_dict_safe : PyVal → List (String × PyVal)
  | .dict es => es
  | _ => []

/-! ### `snuba/datasets/events_processor_base.py` -/

/-- The thirteen members of the `ReplacementType` enum (string values). -/
def ReplacementType.values : List String :=
  [ "start_delete_groups", "start_merge", "start_unmerge",
    "start_unmerge_hierarchical", "start_delete_tag",
    "end_delete_groups", "end_merge", "end_unmerge",
    "end_unmerge_hierarchical", "end_delete_tag",
    "tombstone_events", "replace_group", "exclude_groups" ]

/-- `REPLACEMENT_EVENT_TYPES`: the frozenset built at lines 49-63 of
`events_processor_base.py` (eleven members). -/
def REPLACEMENT_EVENT_TYPES : List String :=
  [ "start_delete_groups", "start_merge", "start_unmerge",
    "start_delete_tag",
    "end_delete_groups", "end_merge", "end_unmerge",
    "end_delete_tag",
    "tombstone_events", "exclude_groups", "replace_group" ]

/-- The `InsertEvent` TypedDict.  `data` is `Option` so that an absent
`"data"` key (read with `event.get("data", {})`) is representable. -/
structure InsertEvent where
  group_id : Option Int
  event_id : String
  organization_id : Int
  project_id : Int
  message : String
  platform : PyVal
  datetime : String
  data : Option PyVal
  primary_hash : String
  retention_days : Int

/-- `KafkaMessageMetadata` (offset, partition, timestamp). -/
structure KafkaMessageMetadata where
  offset : Int
  partition : Int
  timestamp : Int

/-- External collaborators of the pipeline: the stdlib datetime parser for
`settings.PAYLOAD_DATETIME_FORMAT` (`none` models the `ValueError` raised
on a malformed string), the current time, `enforce_retention` (error
models `EventTooOld`), and `settings.PROJECT_STACKTRACE_BLACKLIST`. -/
structure Externals where
  strptime : String → Option Int
  utcnow : Int
  enforce_retention : InsertEvent → Int → Except Unit Int
  stacktrace_blacklist : List Int

/-- The abstract dataset-specific hooks of `EventsProcessorBase`. -/
structure Hooks where
  should_process : InsertEvent → Bool
  extract_event_id : Row → InsertEvent → Row
  extract_custom : Row → InsertEvent → KafkaMessageMetadata → Row
  extract_promoted_tags : Row → List (String × PyVal) → Row
  extract_tags_custom : Row → InsertEvent → List (String × PyVal) → KafkaMessageMetadata → Row
  extract_promoted_contexts : Row → PyVal → List (String × PyVal) → Row

/-- Errors escaping `process_insert`. -/
inductive InsertError where
  | eventTooOld
  | keyError (k : String)
  | valueError (msg : String)
deriving Repr, DecidableEq

/-- Modelled from the spec (`extract_project_id` of
`snuba.datasets.events_format`, not under `src/`): extract the project id
into the output. -/
def extract_project_id (output : Row) (event : InsertEvent) : Row :=
  output.set "project_id" (PyVal.int event.project_id)

/-- `extract_required` (lines 128-140): group id defaults to 0; the
timestamp string is parsed with the fixed format (a malformed string makes
`datetime.strptime` raise), and an invalid parsed date falls back to the
current time. -/
def extract_required (ext : Externals) (output : Row) (event : InsertEvent) :
    Except InsertError Row :=
  let output := output.set "group_id" (PyVal.int (event.group_id.getD 0))
  match ext.strptime event.datetime with
  | Option.none => Except.error (InsertError.valueError "strptime")
  | some parsed =>
    let timestamp :=
      match _ensure_valid_date parsed with
      | Option.none => ext.utcnow
      | some t => t
    Except.ok (output.set "timestamp" (PyVal.int timestamp))

/-- `extract_sdk` (lines 142-153). -/
def extract_sdk (output : Row) (sdk : PyVal) : Row :=
  let output := output.set "sdk_name" (optStrVal (_unicodify (sdk.getAttr "name")))
  let output := output.set "sdk_version" (optStrVal (_unicodify (sdk.getAttr "version")))
  let integrations :=
    ((sdk.getAttr "integrations").orElseVal (PyVal.list [])).asList.filterMap
      (fun i => match _unicodify i with
        | some s => if s ≠ "" then some (PyVal.str s) else Option.none
        | Option.none => Option.none)
  output.set "sdk_integrations" (PyVal.list integrations)

/-- `extract_common` (lines 237-266): platform, the `received` timestamp
(`data["received"]` raises a `KeyError` when absent and `int(...)` a
`ValueError` when unconvertible; the result is collapsed to the unsigned
32-bit range, out-of-range values becoming `None`), version, location and
the module name/version arrays (non-dict `modules` is ignored). -/
def extract_common (output : Row) (event : InsertEvent)
    (_metadata : KafkaMessageMetadata) : Except InsertError Row :=
  let output := output.set "platform" (optStrVal (_unicodify event.platform))
  let data := (event.data.getD (PyVal.dict []))
  match data with
  | PyVal.dict entries =>
    match entries.lookup "received" with
    | Option.none => Except.error (InsertError.keyError "received")
    | some rawReceived =>
      match rawReceived.toIntCast with
      | Option.none => Except.error (InsertError.valueError "int")
      | some n =>
        let received := _collapse_uint32 (some n)
        let output := output.set "received" (optIntVal received)
        let output := output.set "version" (optStrVal (_unicodify (data.getAttr "version")))
        let output := output.set "location" (optStrVal (_unicodify (data.getAttr "location")))
        let modulePairs :=
          match data.getAttr "modules" with
          | PyVal.dict ms =>
            ms.map (fun (nv : String × PyVal) =>
              (optStrVal (_unicodify (PyVal.str nv.1)),
               PyVal.str ((_unicodify nv.2).getD "")))
          | _ => []
        let output := output.set "modules.name" (PyVal.list (modulePairs.map Prod.fst))
        let output := output.set "modules.version" (PyVal.list (modulePairs.map Prod.snd))
        Except.ok output
  | _ => Except.error (InsertError.keyError "received")

/-- The nine parallel per-frame accumulators of `extract_stacktraces`,
plus the per-frame `stack_level`. -/
structure FrameData where
  abs_paths : List (Option String)
  filenames : List (Option String)
  packages : List (Option String)
  modules : List (Option String)
  functions : List (Option String)
  in_app : List PyVal
  colnos : List (Option Int)
  linenos : List (Option Int)
  stack_levels : List Int
deriving Repr

def FrameData.empty : FrameData :=
  ⟨[], [], [], [], [], [], [], [], []⟩

/-- The inner frame loop of `extract_stacktraces` (lines 300-312): `None`
frames are skipped; each remaining frame appends one entry to each of the
nine per-frame lists, recording the current `stack_level`. -/
def framesLoop (frames : List PyVal) (stack_level : Int) : FrameData :=
  match frames with
  | [] => FrameData.empty
  | frame :: rest =>
    let tail := framesLoop rest stack_level
    if frame.isNone then tail
    else
      { abs_paths := _unicodify (frame.getAttr "abs_path") :: tail.abs_paths
        filenames := _unicodify (frame.getAttr "filename") :: tail.filenames
        packages := _unicodify (frame.getAttr "package") :: tail.packages
        modules := _unicodify (frame.getAttr "module") :: tail.modules
        functions := _unicodify (frame.getAttr "function") :: tail.functions
        in_app := frame.getAttr "in_app" :: tail.in_app
        colnos := _collapse_uint32 ((frame.getAttr "colno").asInt) :: tail.colnos
        linenos := _collapse_uint32 ((frame.getAttr "lineno").asInt) :: tail.linenos
        stack_levels := stack_level :: tail.stack_levels }

/-- The four per-stack accumulators plus the per-frame data. -/
structure StacktraceData where
  stack_types : List (Option String)
  stack_values : List (Option String)
  stack_mechanism_types : List (Option String)
  stack_mechanism_handled : List (Option Bool)
  frames : FrameData
deriving Repr

def StacktraceData.empty : StacktraceData :=
  ⟨[], [], [], [], FrameData.empty⟩

def FrameData.append (a b : FrameData) : FrameData :=
  { abs_paths := a.abs_paths ++ b.abs_paths
    filenames := a.filenames ++ b.filenames
    packages := a.packages ++ b.packages
    modules := a.modules ++ b.modules
    functions := a.functions ++ b.functions
    in_app := a.in_app ++ b.in_app
    colnos := a.colnos ++ b.colnos
    linenos := a.linenos ++ b.linenos
    stack_levels := a.stack_levels ++ b.stack_levels }

/-- The frame list of one stack:
`(stack.get("stacktrace") or {}).get("frames") or []`. -/
def framesOfStack (stack : PyVal) : List PyVal :=
  ((((stack.getAttr "stacktrace").orElseVal (PyVal.dict [])).getAttr
    "frames").orElseVal (PyVal.list [])).asList

/-- The outer stack loop of `extract_stacktraces` (lines 287-314): `None`
stacks are skipped (and do not advance `stack_level`); each remaining
stack appends its type/value/mechanism entries, runs the frame loop on
`(stack.get("stacktrace") or {}).get("frames") or []`, then increments
`stack_level`. -/
def stacksLoop (stackList : List PyVal) (stack_level : Int) : StacktraceData :=
  match stackList with
  | [] => StacktraceData.empty
  | stack :: rest =>
    if stack.isNone then stacksLoop rest stack_level
    else
      let mechanism := (stack.getAttr "mechanism").orElseVal (PyVal.dict [])
      let fd := framesLoop (framesOfStack stack) stack_level
      let tail := stacksLoop rest (stack_level + 1)
      { stack_types := _unicodify (stack.getAttr "type") :: tail.stack_types
        stack_values := _unicodify (stack.getAttr "value") :: tail.stack_values
        stack_mechanism_types :=
          _unicodify (mechanism.getAttr "type") :: tail.stack_mechanism_types
        stack_mechanism_handled :=
          _boolify (mechanism.getAttr "handled") :: tail.stack_mechanism_handled
        frames := fd.append tail.frames }

/-- `extract_stacktraces` (lines 268-328): all arrays stay empty when the
row's project id is on the stack-trace denylist, otherwise the stack loop
runs from `stack_level = 0`; the thirteen arrays are then written to the
output row. -/
def extract_stacktraces (ext : Externals) (output : Row) (stackList : List PyVal) : Row :=
  let onBlacklist :=
    match output.get "project_id" with
    | some (PyVal.int pid) => ext.stacktrace_blacklist.contains pid
    | _ => false
  let data := if onBlacklist then StacktraceData.empty else stacksLoop stackList 0
  let output := output.set "exception_stacks.type" (PyVal.list (data.stack_types.map optStrVal))
  let output := output.set "exception_stacks.value" (PyVal.list (data.stack_values.map optStrVal))
  let output := output.set "exception_stacks.mechanism_type" (PyVal.list (data.stack_mechanism_types.map optStrVal))
  let output := output.set "exception_stacks.mechanism_handled" (PyVal.list (data.stack_mechanism_handled.map optBoolVal))
  let output := output.set "exception_frames.abs_path" (PyVal.list (data.frames.abs_paths.map optStrVal))
  let output := output.set "exception_frames.filename" (PyVal.list (data.frames.filenames.map optStrVal))
  let output := output.set "exception_frames.package" (PyVal.list (data.frames.packages.map optStrVal))
  let output := output.set "exception_frames.module" (PyVal.list (data.frames.modules.map optStrVal))
  let output := output.set "exception_frames.function" (PyVal.list (data.frames.functions.map optStrVal))
  let output := output.set "exception_frames.in_app" (PyVal.list data.frames.in_app)
  let output := output.set "exception_frames.colno" (PyVal.list (data.frames.colnos.map optIntVal))
  let output := output.set "exception_frames.lineno" (PyVal.list (data.frames.linenos.map optIntVal))
  output.set "exception_frames.stack_level" (PyVal.list (data.frames.stack_levels.map PyVal.int))

/-- Modelled from the spec: the flattened remainder of a tag mapping, in
input iteration order — promoted keys are excluded and entries whose value
is not representable as a scalar are dropped. -/
def tagRemainder (promoted : List String) : List (String × PyVal) → List (String × String)
  | [] => []
  | kv :: rest =>
    if kv.1 ∈ promoted then tagRemainder promoted rest
    else
      match _unicodify kv.2 with
      | some u => (kv.1, u) :: tagRemainder promoted rest
      | Option.none => tagRemainder promoted rest

/-- Modelled from the spec (`extract_extra_tags` of
`snuba.datasets.events_format`, not under `src/`): flatten the remainder
of the tag mapping into parallel `tags.key`/`tags.value` arrays in input
iteration order, excluding promoted keys, and dropping entries whose value
is not representable as a scalar. -/
def extract_extra_tags (promoted : List String) (tags : List (String × PyVal)) :
    List String × List String :=
  ((tagRemainder promoted tags).map Prod.fst, (tagRemainder promoted tags).map Prod.snd)

/-- Modelled from the spec (`extract_extra_contexts` of
`snuba.datasets.events_format`, not under `src/`): flatten the remainder
of the context mapping into parallel `contexts.key`/`contexts.value`
arrays, dropping entries whose value is not representable as a scalar. -/
def extract_extra_contexts (promoted : List String) (contexts : PyVal) :
    List String × List String :=
  extract_extra_tags promoted (_as_dict_safe contexts)

/-- Modelled from the spec (the generic contract of the
`extract_promoted_tags` dataset hook, whose implementations are not under
`src/`): move each key of the promoted set found in the tag mapping, when
its value is representable as a scalar, into its dedicated column. -/
def extract_promoted_tags_model (tags : List (String × PyVal)) :
    List String → List (String × String)
  | [] => []
  | k :: rest =>
    match (tags.lookup k).bind _unicodify with
    | some v => (k, v) :: extract_promoted_tags_model tags rest
    | Option.none => extract_promoted_tags_model tags rest

/-- Python `v.get(k, d)` on a dict with an explicit default: a present key
wins even when its value is `None`. -/
def PyVal.getWithDefault (v : PyVal) (k : String) (d : PyVal) : PyVal :=
  match v with
  | .dict es =>
    match es.lookup k with
    | some x => x
    | Option.none => d
  | _ => d

/-- The promoted-key sets of the dataset (part of the shared data model):
used by the flattening of the tag/context remainder, which must exclude
whatever the dataset promotes. -/
structure PromotedConfig where
  promoted_tags : List String
  promoted_contexts : List String

/-- `process_insert` (lines 186-235).  The result pairs the produced row
(`none` is an absorbed drop) with the list of `logger.error` messages. -/
def process_insert (ext : Externals) (hooks : Hooks) (cfg : PromotedConfig)
    (event : InsertEvent) (metadata : KafkaMessageMetadata) :
    Except InsertError (Option Row × List String) :=
  if ¬ hooks.should_process event then Except.ok (Option.none, []) else
  let processed : Row := [("deleted", PyVal.int 0)]
  let processed := extract_project_id processed event
  let processed := hooks.extract_event_id processed event
  match ext.strptime event.datetime with
  | Option.none => Except.error (InsertError.valueError "strptime")
  | some parsed =>
  match ext.enforce_retention event parsed with
  | Except.error _ => Except.error InsertError.eventTooOld
  | Except.ok retention =>
  let processed := processed.set "retention_days" (PyVal.int retention)
  match extract_required ext processed event with
  | Except.error e => Except.error e
  | Except.ok processed =>
  let data := event.data.getD (PyVal.dict [])
  if ¬ data.truthy then Except.ok (Option.none, ["No data for event"]) else
  match extract_common processed event metadata with
  | Except.error e => Except.error e
  | Except.ok processed =>
  let processed := hooks.extract_custom processed event metadata
  let sdk := (data.getAttr "sdk").orElseVal (PyVal.dict [])
  let processed := extract_sdk processed sdk
  let tags := _as_dict_safe (data.getAttr "tags")
  let processed := hooks.extract_promoted_tags processed tags
  let processed := hooks.extract_tags_custom processed event tags metadata
  let contexts := (data.getAttr "contexts").orElseVal (PyVal.dict [])
  let processed := hooks.extract_promoted_contexts processed contexts tags
  let extraContexts := extract_extra_contexts cfg.promoted_contexts contexts
  let processed := processed.set "contexts.key" (PyVal.list (extraContexts.1.map PyVal.str))
  let processed := processed.set "contexts.value" (PyVal.list (extraContexts.2.map PyVal.str))
  let extraTags := extract_extra_tags cfg.promoted_tags tags
  let processed := processed.set "tags.key" (PyVal.list (extraTags.1.map PyVal.str))
  let processed := processed.set "tags.value" (PyVal.list (extraTags.2.map PyVal.str))
  let exception :=
    (data.getWithDefault "exception"
      (data.getWithDefault "sentry.interfaces.Exception" PyVal.none)).orElseVal
      (PyVal.dict [])
  let stackList := (exception.getAttr "values").orElseVal (PyVal.list [])
  let processed := extract_stacktraces ext processed stackList.asList
  let processed := processed.set "offset" (PyVal.int metadata.offset)
  let processed := processed.set "partition" (PyVal.int metadata.partition)
  let processed := processed.set "message_timestamp" (PyVal.int metadata.timestamp)
  Except.ok (some processed, [])

/-- A version-2 message `(version, type, event[, state])`; the optional
trailing state is never read by `process_message`. -/
structure RawMessage where
  version : Int
  kind : String
  event : InsertEvent

/-- `ProcessedMessage`: an insert batch or a replacement batch. -/
inductive ProcessedMessage where
  | insertBatch (rows : List Row)
  | replacementBatch (key : String) (messages : List RawMessage)

/-- Protocol-level errors escaping `process_message`. -/
inductive MessageError where
  | invalidMessageVersion (version : Int)
  | invalidMessageType (kind : String)
  | processingError (e : InsertError)

/-- `process_message` (lines 155-184): reject versions other than 2; run
the insert extraction for kind `"insert"` (absorbing `EventTooOld` and a
`None` row as a silent drop); forward the raw message keyed by
`str(project_id)` for the eleven replacement kinds; any other kind raises
`InvalidMessageType`. -/
def process_message (ext : Externals) (hooks : Hooks) (cfg : PromotedConfig)
    (message : RawMessage) (metadata : KafkaMessageMetadata) :
    Except MessageError (Option ProcessedMessage × List String) :=
  if message.version ≠ 2 then
    Except.error (MessageError.invalidMessageVersion message.version)
  else if message.kind = "insert" then
    match process_insert ext hooks cfg message.event metadata with
    | Except.error InsertError.eventTooOld => Except.ok (Option.none, [])
    | Except.error e => Except.error (MessageError.processingError e)
    | Except.ok (Option.none, logs) => Except.ok (Option.none, logs)
    | Except.ok (some row, logs) =>
      Except.ok (some (ProcessedMessage.insertBatch [row]), logs)
  else if REPLACEMENT_EVENT_TYPES.contains message.kind then
    Except.ok
      (some (ProcessedMessage.replacementBatch
        (toString message.event.project_id) [message]), [])
  else
    Except.error (MessageError.invalidMessageType message.kind)

/-! ### `snuba/utils/codecs.py` -/

/-- `PassthroughCodec.encode` (lines 39-40): returns its argument. -/
def PassthroughCodec.encode {T : Type} (value : T) : T := value

/-- `PassthroughCodec.decode` (lines 42-43): returns its argument. -/
def PassthroughCodec.decode {T : Type} (value : T) : T := value

/-! ### `snuba/query/processors/single_tag_expr.py` -/

/- The snuba query expression nodes used by the rewriter (from
`snuba.query.expressions`, whose shapes are fixed by their use in
`single_tag_expr.py`): `Column(alias, column_name, table_name)`,
`Literal(alias, value)`, `FunctionCall(alias, function_name, parameters)`
and `NestedColumn(alias, column_name, key)`.  Parameter tuples are encoded
by the mutually defined `ExpressionList`. -/
mutual
inductive Expression where
  | column (al : Option String) (column_name : String) (table_name : Option String)
  | literal (al : Option String) (value : String)
  | functionCall (al : Option String) (function_name : String) (parameters : ExpressionList)
  | nestedColumn (al : Option String) (column_name : String) (key : String)

inductive ExpressionList where
  | nil
  | cons (e : Expression) (es : ExpressionList)
end

/-- Modelled from the spec (`array_element` of `snuba.query.dsl`, not
under `src/`): the array-element lookup function call on an array and an
index expression. -/
def array_element (al : Option String) (array idx : Expression) : Expression :=
  Expression.functionCall al "arrayElement"
    (ExpressionList.cons array (ExpressionList.cons idx ExpressionList.nil))

/-- Python `pat in s` on strings: `pat` occurs as a substring of `s`. -/
def strContains (s pat : String) : Bool :=
  (List.range (s.length + 1)).any
    (fun i => pat.toList.isPrefixOf (s.toList.drop i))

/-- The configuration of `SingleTagProcessor`: the nested-family names,
the dataset `ColumnSet` (modelled as the map from column name to the
string form of its declared type, i.e. `str(col_type)`), the promoted
column sets per family and the key-alias map per family. -/
structure SingleTagProcessor where
  nested_column_names : List String
  columns : List (String × String)
  promoted_columns : List (String × List String)
  key_column_map : List (String × List (String × String))

/-- `process_column` (lines 48-88 of `single_tag_expr.py`): a node that is
not a subscript access (`NestedColumn`) on a configured family is returned
unchanged; otherwise the logical key is resolved through the key-alias map
(defaulting to itself); a resolved name in the family's promoted set
becomes a bare column reference when its declared type is a non-fixed
string and a `toString` call otherwise; everything else becomes
`arrayElement(F.value, indexOf(F.key, key))`.  (Python indexes
`key_column_map[col_name]` directly; a family present in
`promoted_columns` is also present in `key_column_map` in any coherent
configuration, and an absent one is modelled as the empty map.) -/
def process_column (p : SingleTagProcessor) (exp : Expression) : Expression :=
  match exp with
  | Expression.nestedColumn al col_name key_name =>
    if col_name ∈ p.nested_column_names then
      let promotedHit :=
        match p.promoted_columns.lookup col_name with
        | some promotedSet =>
          let promoted_column_name :=
            (((p.key_column_map.lookup col_name).getD []).lookup key_name).getD key_name
          if promoted_column_name ∈ promotedSet then
            match p.columns.lookup promoted_column_name with
            | some col_type =>
              if strContains col_type "String" && ! strContains col_type "FixedString" then
                some (Expression.column al promoted_column_name Option.none)
              else
                some (Expression.functionCall al "toString"
                  (ExpressionList.cons
                    (Expression.column Option.none promoted_column_name Option.none)
                    ExpressionList.nil))
            | Option.none =>
              some (Expression.functionCall al "toString"
                (ExpressionList.cons
                  (Expression.column Option.none promoted_column_name Option.none)
                  ExpressionList.nil))
          else Option.none
        | Option.none => Option.none
      match promotedHit with
      | some result => result
      | Option.none =>
        array_element al
          (Expression.column Option.none (col_name ++ ".value") Option.none)
          (Expression.functionCall Option.none "indexOf"
            (ExpressionList.cons
              (Expression.column Option.none (col_name ++ ".key") Option.none)
              (ExpressionList.cons (Expression.literal Option.none key_name)
                ExpressionList.nil)))
    else exp
  | e => e

/- Modelled from the spec (`Query.transform_expressions`, not under
`src/`): the rewriter "traverses every node" of the expression tree
depth-first, applying the rewrite function to each node.  `transformPost`
is the post-order (children first) traversal; `transformPreFuel` is the
pre-order (node first) traversal, written with explicit fuel since the
rewrite may replace a node by a tree that still has to be visited. -/
mutual
def transformPost (f : Expression → Expression) : Expression → Expression
  | Expression.functionCall al name ps =>
    f (Expression.functionCall al name (transformPostList f ps))
  | e => f e

def transformPostList (f : Expression → Expression) : ExpressionList → ExpressionList
  | ExpressionList.nil => ExpressionList.nil
  | ExpressionList.cons e es =>
    ExpressionList.cons (transformPost f e) (transformPostList f es)
end

mutual
def transformPreFuel (f : Expression → Expression) : Nat → Expression → Expression
  | 0, e => e
  | n + 1, e =>
    match f e with
    | Expression.functionCall al name ps =>
      Expression.functionCall al name (transformPreFuelList f n ps)
    | other => other

def transformPreFuelList (f : Expression → Expression) : Nat → ExpressionList → ExpressionList
  | _, ExpressionList.nil => ExpressionList.nil
  | n, ExpressionList.cons e es =>
    ExpressionList.cons (transformPreFuel f n e) (transformPreFuelList f n es)
end

/-- Modelled from the spec: `process_query` applies `process_column` to
every node of the query's expression tree (depth-first traversal of
`Query.transform_expressions`, here post-order). -/
def SingleTagProcessor.process_query (p : SingleTagProcessor) (e : Expression) : Expression :=
  transformPost (process_column p) e

mutual
def Expression.depth : Expression → Nat
  | Expression.functionCall _ _ ps => 1 + ExpressionList.depthMax ps
  | _ => 1

def ExpressionList.depthMax : ExpressionList → Nat
  | ExpressionList.nil => 0
  | ExpressionList.cons e es => max e.depth (ExpressionList.depthMax es)
end

/- `noTagAccess p e` holds when no node of `e` is a subscript access on a
family configured in `p` — i.e. no node of `e` is rewritten by
`process_column p`. -/
mutual
def Expression.noTagAccess (p : SingleTagProcessor) : Expression → Bool
  | Expression.functionCall _ _ ps => ExpressionList.noTagAccess p ps
  | Expression.nestedColumn _ col_name _ => ! p.nested_column_names.contains col_name
  | _ => true

def ExpressionList.noTagAccess (p : SingleTagProcessor) : ExpressionList → Bool
  | ExpressionList.nil => true
  | ExpressionList.cons e es => e.noTagAccess p && ExpressionList.noTagAccess p es
end

/-- Modelled from the spec (ClickHouse `indexOf` semantics): the 1-based
position of `k` in the array, with 0 as the "not found" sentinel. -/
def chIndexOf (xs : List String) (k : String) : Nat :=
  match xs with
  | [] => 0
  | x :: rest =>
    if x = k then 1
    else
      match chIndexOf rest k with
      | 0 => 0
      | n => n + 1

/-- Modelled from the spec (ClickHouse `arrayElement` semantics on a
1-indexed string array): index 0 and out-of-range indices give the array
type's configured default value (the empty string), never an error. -/
def chArrayElement (xs : List String) (i : Nat) : String :=
  if i = 0 then "" else xs.getD (i - 1) ""

/-- The declared output type of a rewritten promoted-column expression is
string: either it is a `toString` call, or a bare column whose declared
type (in the dataset column set) is a non-fixed-length string type. -/
def outputTypeIsString (cols : List (String × String)) : Expression → Bool
  | Expression.functionCall _ name _ => name = "toString"
  | Expression.column _ n _ =>
    match cols.lookup n with
    | some t => strContains t "String" && ! strContains t "FixedString"
    | Option.none => false
  | _ => false

/-! ### Concrete fixtures used by witnesses and counterexamples -/

/-- A well-formed event fixture for project 7. -/
def evFix : InsertEvent :=
  { group_id := some 10
    event_id := "aabb"
    organization_id := 1
    project_id := 7
    message := "hello"
    platform := PyVal.str "python"
    datetime := "2021-08-01T00:00:00.000000Z"
    data := some (PyVal.dict [("received", PyVal.int 1627776000)])
    primary_hash := ""
    retention_days := 90 }

/-- Externals fixture: the parser accepts exactly the fixture timestamp. -/
def extFix : Externals :=
  { strptime := fun s =>
      if s = "2021-08-01T00:00:00.000000Z" then some 1627776000 else Option.none
    utcnow := 1700000000
    enforce_retention := fun _ _ => Except.ok 90
    stacktrace_blacklist := [1, 2] }

/-- Hooks fixture: accept everything, extract nothing extra. -/
def hooksFix : Hooks :=
  { should_process := fun _ => true
    extract_event_id := fun r _ => r
    extract_custom := fun r _ _ => r
    extract_promoted_tags := fun r _ => r
    extract_tags_custom := fun r _ _ _ => r
    extract_promoted_contexts := fun r _ _ => r }

/-- Promoted-key configuration fixture: nothing promoted. -/
def cfgFix : PromotedConfig := { promoted_tags := [], promoted_contexts := [] }

/-- Stream metadata fixture. -/
def mdFix : KafkaMessageMetadata := { offset := 5, partition := 1, timestamp := 1627776100 }

/-! ### C9 -/

/-- C9: `PassthroughCodec.decode ∘ encode` and `encode ∘ decode` are the
identity on every value; both `encode` and `decode` are the identity
function. -/
theorem C9_passthrough_codec_identity :
    ∀ (T : Type) (x : T),
      PassthroughCodec.decode (PassthroughCodec.encode x) = x ∧
      PassthroughCodec.encode (PassthroughCodec.decode x) = x ∧
      PassthroughCodec.encode x = x ∧
      PassthroughCodec.decode x = x :=
  fun _ _ => ⟨rfl, rfl, rfl, rfl⟩

/-! ### C1 -/

/-- C1 counterexample: `start_unmerge_hierarchical` is one of the
unmerge-hierarchical mutation kinds the claim counts among the forwarded
set (it is a `ReplacementType` enum member), yet `process_message` raises
the invalid-message-kind error on it instead of returning a replacement
batch, because `REPLACEMENT_EVENT_TYPES` omits the two hierarchical
kinds. -/
theorem C1_counterexample :
    "start_unmerge_hierarchical" ∈ ReplacementType.values ∧
    "start_unmerge_hierarchical" ∉ REPLACEMENT_EVENT_TYPES ∧
    process_message extFix hooksFix cfgFix
        ⟨2, "start_unmerge_hierarchical", evFix⟩ mdFix =
      Except.error (MessageError.invalidMessageType "start_unmerge_hierarchical") := by
  refine ⟨by decide, by decide, ?_⟩
  rfl

/-- C1 (amended): for every version-2 message whose kind is one of the
eleven members of `REPLACEMENT_EVENT_TYPES` (start/end of delete-groups,
merge, unmerge and delete-tag, plus tombstone-events, replace-group and
exclude-groups — the unmerge-hierarchical kinds are not in the set),
`process_message` performs no field extraction and returns a replacement
batch keyed by `str(project_id)` containing the original message
unmodified; every kind outside the set that is not `"insert"` (including
the two unmerge-hierarchical kinds) raises the invalid-message-kind error
rather than dropping. -/
theorem C1_replacement_routing
    (ext : Externals) (hooks : Hooks) (cfg : PromotedConfig)
    (msg : RawMessage) (md : KafkaMessageMetadata)
    (hv : msg.version = 2) :
    (msg.kind ∈ REPLACEMENT_EVENT_TYPES →
      process_message ext hooks cfg msg md =
        Except.ok (some (ProcessedMessage.replacementBatch
          (toString msg.event.project_id) [msg]), [])) ∧
    (msg.kind ∉ REPLACEMENT_EVENT_TYPES → msg.kind ≠ "insert" →
      process_message ext hooks cfg msg md =
        Except.error (MessageError.invalidMessageType msg.kind)) := by
  have hins : "insert" ∉ REPLACEMENT_EVENT_TYPES := by decide
  constructor
  · intro hk
    have hne : msg.kind ≠ "insert" := fun h => hins (h ▸ hk)
    simp only [process_message, hv, if_neg (by omega : ¬ (2 : Int) ≠ 2)]
    rw [if_neg hne, if_pos (List.elem_eq_true_of_mem hk)]
  · intro hk hne
    simp only [process_message, hv, if_neg (by omega : ¬ (2 : Int) ≠ 2)]
    rw [if_neg hne, if_neg (fun h => hk (List.mem_of_elem_eq_true h))]

/-- C1 witness: the amended routing theorem at two concrete messages — a
`start_merge` message for project 7 is forwarded keyed `"7"`, and an
unknown kind `"bogus"` raises the invalid-message-kind error. -/
theorem C1_replacement_routing_witness :
    process_message extFix hooksFix cfgFix ⟨2, "start_merge", evFix⟩ mdFix =
      Except.ok (some (ProcessedMessage.replacementBatch
        (toString evFix.project_id) [⟨2, "start_merge", evFix⟩]), []) ∧
    process_message extFix hooksFix cfgFix ⟨2, "bogus", evFix⟩ mdFix =
      Except.error (MessageError.invalidMessageType "bogus") :=
  ⟨(C1_replacement_routing extFix hooksFix cfgFix ⟨2, "start_merge", evFix⟩ mdFix rfl).1
      (by decide),
   (C1_replacement_routing extFix hooksFix cfgFix ⟨2, "bogus", evFix⟩ mdFix rfl).2
      (by decide) (by decide)⟩

/-! ### C3 and C4 -/

/-- `chIndexOf` returns the 0 sentinel exactly on absent keys. -/
theorem chIndexOf_eq_zero_of_not_mem (ks : List String) (k : String)
    (h : k ∉ ks) : chIndexOf ks k = 0 := by
  induction ks with
  | nil => rfl
  | cons x rest ih =>
    have hx : x ≠ k := fun hxk => h (hxk ▸ List.mem_cons_self x rest)
    have hr : k ∉ rest := fun hm => h (List.mem_cons_of_mem x hm)
    simp [chIndexOf, hx, ih hr]

/-- The rewriter configuration fixture used by the rewriter witnesses:
family `tags` with promoted keys `level` (a plain string column) and
`num_hits` (a numeric column), alias `hits → num_hits`. -/
def procFix : SingleTagProcessor :=
  { nested_column_names := ["tags", "contexts"]
    columns := [("level", "String"), ("num_hits", "UInt64"), ("short_id", "FixedString(8)")]
    promoted_columns := [("tags", ["level", "num_hits", "short_id"])]
    key_column_map := [("tags", [("hits", "num_hits")])] }

/-- C3: a subscript access with key K on a configured family F whose
resolved physical name is not in F's promoted set is rewritten to
`arrayElement(F.value, indexOf(F.key, K))` carrying the original alias;
and under the 1-indexed ClickHouse semantics that composition yields the
array default value (not an error) for an absent key, via indexOf's 0
sentinel. -/
theorem C3_non_promoted_subscript_rewrite
    (p : SingleTagProcessor) (al : Option String) (col key : String)
    (promotedSet : List String) (km : List (String × String))
    (hfam : col ∈ p.nested_column_names)
    (hprom : p.promoted_columns.lookup col = some promotedSet)
    (hkm : p.key_column_map.lookup col = some km)
    (hnot : ((km.lookup key).getD key) ∉ promotedSet) :
    process_column p (Expression.nestedColumn al col key) =
      array_element al
        (Expression.column Option.none (col ++ ".value") Option.none)
        (Expression.functionCall Option.none "indexOf"
          (ExpressionList.cons
            (Expression.column Option.none (col ++ ".key") Option.none)
            (ExpressionList.cons (Expression.literal Option.none key)
              ExpressionList.nil))) ∧
    (∀ ks vs : List String, key ∉ ks →
      chArrayElement vs (chIndexOf ks key) = "") := by
  constructor
  · simp [process_column, hfam, hprom, hkm, hnot]
  · intro ks vs h
    rw [chIndexOf_eq_zero_of_not_mem ks key h]
    rfl

/-- C3 witness: in the fixture configuration, `tags[browser]` (not
promoted) rewrites to the array-element lookup, and looking `browser` up
in a concrete key array that lacks it yields the default `""`. -/
theorem C3_non_promoted_subscript_rewrite_witness :
    process_column procFix (Expression.nestedColumn (some "b") "tags" "browser") =
      array_element (some "b")
        (Expression.column Option.none "tags.value" Option.none)
        (Expression.functionCall Option.none "indexOf"
          (ExpressionList.cons
            (Expression.column Option.none "tags.key" Option.none)
            (ExpressionList.cons (Expression.literal Option.none "browser")
              ExpressionList.nil))) ∧
    chArrayElement ["debug", "prod"] (chIndexOf ["env", "region"] "browser") = "" := by
  have h := C3_non_promoted_subscript_rewrite procFix (some "b") "tags" "browser"
    ["level", "num_hits", "short_id"] [("hits", "num_hits")]
    (by decide) (by decide) (by decide) (by decide)
  exact ⟨h.1, h.2 ["env", "region"] ["debug", "prod"] (by decide)⟩

/-- The alias carried by an expression node. -/
def Expression.aliasOf : Expression → Option String
  | Expression.column a _ _ => a
  | Expression.literal a _ => a
  | Expression.functionCall a _ _ => a
  | Expression.nestedColumn a _ _ => a

/-- C4: a subscript access on a configured family whose resolved physical
name (key-alias map, defaulting to the key itself) is in the family's
promoted set becomes a bare column reference exactly when the column's
declared type is a non-fixed-length string (`"String" in t` and not
`"FixedString" in t`), and a `toString` wrapper around the column in every
other case (including an undeclared column type); both branches carry the
original node's alias and the produced expression's declared output type
is string. -/
theorem C4_promoted_subscript_rewrite
    (p : SingleTagProcessor) (al : Option String) (col key : String)
    (promotedSet : List String) (km : List (String × String))
    (hfam : col ∈ p.nested_column_names)
    (hprom : p.promoted_columns.lookup col = some promotedSet)
    (hkm : p.key_column_map.lookup col = some km)
    (hin : ((km.lookup key).getD key) ∈ promotedSet) :
    process_column p (Expression.nestedColumn al col key) =
      (match p.columns.lookup ((km.lookup key).getD key) with
       | some t =>
         if strContains t "String" && ! strContains t "FixedString" then
           Expression.column al ((km.lookup key).getD key) Option.none
         else
           Expression.functionCall al "toString"
             (ExpressionList.cons
               (Expression.column Option.none ((km.lookup key).getD key) Option.none)
               ExpressionList.nil)
       | Option.none =>
         Expression.functionCall al "toString"
           (ExpressionList.cons
             (Expression.column Option.none ((km.lookup key).getD key) Option.none)
             ExpressionList.nil)) ∧
    (process_column p (Expression.nestedColumn al col key)).aliasOf = al ∧
    outputTypeIsString p.columns
      (process_column p (Expression.nestedColumn al col key)) = true := by
  have hmain :
      process_column p (Expression.nestedColumn al col key) =
        (match p.columns.lookup ((km.lookup key).getD key) with
         | some t =>
           if strContains t "String" && ! strContains t "FixedString" then
             Expression.column al ((km.lookup key).getD key) Option.none
           else
             Expression.functionCall al "toString"
               (ExpressionList.cons
                 (Expression.column Option.none ((km.lookup key).getD key) Option.none)
                 ExpressionList.nil)
         | Option.none =>
           Expression.functionCall al "toString"
             (ExpressionList.cons
               (Expression.column Option.none ((km.lookup key).getD key) Option.none)
               ExpressionList.nil)) := by
    simp only [process_column, if_pos hfam, hprom, hkm, Option.getD_some]
    rw [if_pos hin]
    cases h : p.columns.lookup ((km.lookup key).getD key) with
    | none => simp
    | some t =>
      by_cases ht : strContains t "String" && ! strContains t "FixedString"
      · simp [ht]
      · simp [ht]
  refine ⟨hmain, ?_, ?_⟩ <;> rw [hmain] <;>
    cases h : p.columns.lookup ((km.lookup key).getD key) with
  | none => simp [Expression.aliasOf, outputTypeIsString]
  | some t =>
    by_cases ht : strContains t "String" && ! strContains t "FixedString" <;>
      simp [ht, Expression.aliasOf, outputTypeIsString, h]

/-- C4 witness: in the fixture configuration, `tags[level]` (promoted,
plain `String` column) rewrites to a bare aliased column; `tags[hits]`
(aliased to the promoted `num_hits` column of type `UInt64`) rewrites to
an aliased `toString` call; `tags[short_id]` (promoted `FixedString(8)`
column) also gets the `toString` wrapper; all have string output type. -/
theorem C4_promoted_subscript_rewrite_witness :
    process_column procFix (Expression.nestedColumn (some "l") "tags" "level") =
      Expression.column (some "l") "level" Option.none ∧
    process_column procFix (Expression.nestedColumn (some "h") "tags" "hits") =
      Expression.functionCall (some "h") "toString"
        (ExpressionList.cons (Expression.column Option.none "num_hits" Option.none)
          ExpressionList.nil) ∧
    process_column procFix (Expression.nestedColumn (some "s") "tags" "short_id") =
      Expression.functionCall (some "s") "toString"
        (ExpressionList.cons (Expression.column Option.none "short_id" Option.none)
          ExpressionList.nil) ∧
    outputTypeIsString procFix.columns
      (process_column procFix (Expression.nestedColumn (some "l") "tags" "level")) = true ∧
    outputTypeIsString procFix.columns
      (process_column procFix (Expression.nestedColumn (some "h") "tags" "hits")) = true := by
  have hl := C4_promoted_subscript_rewrite procFix (some "l") "tags" "level"
    ["level", "num_hits", "short_id"] [("hits", "num_hits")]
    (by decide) (by rfl) (by rfl) (by decide)
  have hh := C4_promoted_subscript_rewrite procFix (some "h") "tags" "hits"
    ["level", "num_hits", "short_id"] [("hits", "num_hits")]
    (by decide) (by rfl) (by rfl) (by decide)
  have hs := C4_promoted_subscript_rewrite procFix (some "s") "tags" "short_id"
    ["level", "num_hits", "short_id"] [("hits", "num_hits")]
    (by decide) (by rfl) (by rfl) (by decide)
  exact ⟨hl.1.trans rfl, hh.1.trans rfl, hs.1.trans rfl, hl.2.2, hh.2.2⟩

/-! ### C5 -/

/-- An event whose timestamp string does not match the payload format. -/
def evBadTs : InsertEvent :=
  { evFix with datetime := "not-a-timestamp" }

/-- C5 counterexample: a malformed timestamp string DOES fail the whole
message — `datetime.strptime` is called outside any handler (both at line
197 for retention and inside `extract_required`), so the `ValueError` it
raises on an unparseable string propagates out of `process_insert` and
`process_message`; the now-fallback only covers a string that parses to an
invalid (out-of-range) date. -/
theorem C5_counterexample :
    process_insert extFix hooksFix cfgFix evBadTs mdFix =
      Except.error (InsertError.valueError "strptime") ∧
    process_message extFix hooksFix cfgFix ⟨2, "insert", evBadTs⟩ mdFix =
      Except.error (MessageError.processingError (InsertError.valueError "strptime")) := by
  exact ⟨rfl, rfl⟩

/-- C5 (amended): the timestamp fallback protects against invalid parsed
dates, not against unparseable strings: if the timestamp string parses but
`_ensure_valid_date` rejects the result, `extract_required` substitutes
the current time and succeeds (processing of the row continues); if the
string does not parse, the `ValueError` of `datetime.strptime` escapes and
fails the message. -/
theorem C5_timestamp_fallback
    (ext : Externals) (output : Row) (event : InsertEvent) :
    (∀ d : Int, ext.strptime event.datetime = some d →
      _ensure_valid_date d = Option.none →
      extract_required ext output event =
        Except.ok ((output.set "group_id"
          (PyVal.int (event.group_id.getD 0))).set "timestamp"
            (PyVal.int ext.utcnow))) ∧
    (ext.strptime event.datetime = Option.none →
      extract_required ext output event =
        Except.error (InsertError.valueError "strptime")) := by
  constructor
  · intro d hparse hinvalid
    simp [extract_required, hparse, hinvalid]
  · intro hparse
    simp [extract_required, hparse]

/-- C5 witness: the fallback theorem at a concrete out-of-range parsed
date (epoch seconds −5) and at the unparseable fixture string. -/
theorem C5_timestamp_fallback_witness :
    (Externals.mk (fun _ => some (-5)) 1700000000
        (fun _ _ => Except.ok 90) []).strptime evFix.datetime = some (-5) ∧
    _ensure_valid_date (-5) = Option.none ∧
    extract_required
        (Externals.mk (fun _ => some (-5)) 1700000000
          (fun _ _ => Except.ok 90) []) [] evFix =
      Except.ok ((Row.set [] "group_id" (PyVal.int 10)).set "timestamp"
        (PyVal.int 1700000000)) ∧
    extract_required extFix [] evBadTs =
      Except.error (InsertError.valueError "strptime") := by
  refine ⟨rfl, by decide, ?_, ?_⟩
  · exact (C5_timestamp_fallback
      (Externals.mk (fun _ => some (-5)) 1700000000 (fun _ _ => Except.ok 90) [])
      [] evFix).1 (-5) rfl (by decide)
  · exact (C5_timestamp_fallback extFix [] evBadTs).2 rfl

/-! ### C6 -/

/-- C6: for a version-2 insert message of a well-formed event (parseable
timestamp, accepted by the should-process hook, retention computable)
whose data payload is empty or absent, the pipeline returns no row and
raises no error — the message is fully consumed with exactly one error
logged. -/
theorem C6_empty_data_drop
    (ext : Externals) (hooks : Hooks) (cfg : PromotedConfig)
    (event : InsertEvent) (md : KafkaMessageMetadata) (d retention : Int)
    (hsp : hooks.should_process event = true)
    (hparse : ext.strptime event.datetime = some d)
    (hret : ext.enforce_retention event d = Except.ok retention)
    (hdata : event.data = Option.none ∨ event.data = some (PyVal.dict [])) :
    process_insert ext hooks cfg event md =
      Except.ok (Option.none, ["No data for event"]) ∧
    process_message ext hooks cfg ⟨2, "insert", event⟩ md =
      Except.ok (Option.none, ["No data for event"]) := by
  have hfalsy : ¬ (event.data.getD (PyVal.dict [])).truthy = true := by
    rcases hdata with h | h <;> simp [h, Option.getD, PyVal.truthy]
  have hpi : process_insert ext hooks cfg event md =
      Except.ok (Option.none, ["No data for event"]) := by
    simp [process_insert, hsp, hparse, hret, extract_required, hfalsy]
  exact ⟨hpi, by simp [process_message, hpi]⟩

/-- C6 witness: the empty-data drop at the concrete fixture event with
`data = {}`. -/
theorem C6_empty_data_drop_witness :
    process_insert extFix hooksFix cfgFix
        { evFix with data := some (PyVal.dict []) } mdFix =
      Except.ok (Option.none, ["No data for event"]) ∧
    process_message extFix hooksFix cfgFix
        ⟨2, "insert", { evFix with data := some (PyVal.dict []) }⟩ mdFix =
      Except.ok (Option.none, ["No data for event"]) :=
  C6_empty_data_drop extFix hooksFix cfgFix
    { evFix with data := some (PyVal.dict []) } mdFix 1627776000 90
    rfl rfl rfl (Or.inr rfl)

/-! ### C10 -/

/-- C10: `data["received"]` is read strictly — inside a non-empty payload
a missing `received` key raises `KeyError` and a value `int()` cannot
convert raises `ValueError`, both propagating out of `process_insert`
(the message is neither dropped nor coerced); an integer `received`
outside the unsigned 32-bit range, in contrast, is collapsed to a null
`received` value and extraction of the rest of the row continues. -/
theorem C10_received_strictness :
    (∀ (ext : Externals) (hooks : Hooks) (cfg : PromotedConfig)
       (event : InsertEvent) (md : KafkaMessageMetadata) (d retention : Int)
       (entries : List (String × PyVal)),
       hooks.should_process event = true →
       ext.strptime event.datetime = some d →
       ext.enforce_retention event d = Except.ok retention →
       event.data = some (PyVal.dict entries) → entries ≠ [] →
       ((entries.lookup "received" = Option.none →
         process_insert ext hooks cfg event md =
           Except.error (InsertError.keyError "received")) ∧
        (∀ v, entries.lookup "received" = some v → v.toIntCast = Option.none →
         process_insert ext hooks cfg event md =
           Except.error (InsertError.valueError "int")))) ∧
    (∀ (output : Row) (event : InsertEvent) (md : KafkaMessageMetadata)
       (entries : List (String × PyVal)) (n : Int),
       event.data = some (PyVal.dict entries) →
       entries.lookup "received" = some (PyVal.int n) →
       ¬ (0 ≤ n ∧ n ≤ 4294967295) →
       ∃ r, extract_common output event md = Except.ok r ∧
         r.get "received" = some PyVal.none) := by
  constructor
  · intro ext hooks cfg event md d retention entries hsp hparse hret hdata hne
    have htruthy : (PyVal.dict entries).truthy = true := by
      simp [PyVal.truthy, hne]
    constructor
    · intro hrec
      simp [process_insert, hsp, hparse, hret, extract_required, htruthy,
        extract_common, hdata, hrec]
    · intro v hrec hcast
      simp [process_insert, hsp, hparse, hret, extract_required, htruthy,
        extract_common, hdata, hrec, hcast]
  · intro output event md entries n hdata hrec hrange
    have hcoll : _collapse_uint32 (some n) = Option.none := by
      simp [_collapse_uint32, hrange]
    cases hec : extract_common output event md with
    | error e =>
      exfalso
      revert hec
      simp [extract_common, hdata, hrec, PyVal.toIntCast, hcoll]
    | ok r =>
      refine ⟨r, rfl, ?_⟩
      revert hec
      simp only [extract_common, hdata, hrec, PyVal.toIntCast, hcoll,
        Option.getD_some, Except.ok.injEq]
      intro hr
      rw [← hr]
      simp [Row.get, Row.set, optIntVal, List.lookup]

/-- C10 witness: the strictness theorem at three concrete payloads — one
lacking `received`, one with an unconvertible `received`, and one with an
out-of-range integer `received` (which yields a null and succeeds). -/
theorem C10_received_strictness_witness :
    process_insert extFix hooksFix cfgFix
        { evFix with data := some (PyVal.dict [("foo", PyVal.int 1)]) } mdFix =
      Except.error (InsertError.keyError "received") ∧
    process_insert extFix hooksFix cfgFix
        { evFix with data := some (PyVal.dict [("received", PyVal.list [])]) } mdFix =
      Except.error (InsertError.valueError "int") ∧
    (∃ r, extract_common []
        { evFix with data := some (PyVal.dict [("received", PyVal.int 5000000000)]) }
        mdFix = Except.ok r ∧ r.get "received" = some PyVal.none) := by
  have h1 := C10_received_strictness.1 extFix hooksFix cfgFix
    { evFix with data := some (PyVal.dict [("foo", PyVal.int 1)]) } mdFix
    1627776000 90 [("foo", PyVal.int 1)]
    rfl rfl rfl rfl (by simp)
  have h2 := C10_received_strictness.1 extFix hooksFix cfgFix
    { evFix with data := some (PyVal.dict [("received", PyVal.list [])]) } mdFix
    1627776000 90 [("received", PyVal.list [])]
    rfl rfl rfl rfl (by simp)
  have h3 := C10_received_strictness.2 []
    { evFix with data := some (PyVal.dict [("received", PyVal.int 5000000000)]) }
    mdFix [("received", PyVal.int 5000000000)] 5000000000 rfl rfl (by omega)
  exact ⟨h1.1 rfl, h2.2 (PyVal.list []) rfl rfl, h3⟩


/-! ### C2 -/

/-- Keys of the promoted extraction all come from the promoted set. -/
theorem promoted_model_keys_subset (tags : List (String × PyVal)) :
    ∀ (promoted : List String) (k : String),
      k ∈ (extract_promoted_tags_model tags promoted).map Prod.fst →
      k ∈ promoted := by
  intro promoted
  induction promoted with
  | nil => intro k h; simp [extract_promoted_tags_model] at h
  | cons p rest ih =>
    intro k h
    rw [extract_promoted_tags_model] at h
    cases hv : (tags.lookup p).bind _unicodify with
    | none =>
      rw [hv] at h
      exact List.mem_cons_of_mem p (ih k h)
    | some v =>
      rw [hv] at h
      simp only [List.map_cons, List.mem_cons] at h
      rcases h with h1 | h1
      · exact h1 ▸ List.mem_cons_self p rest
      · exact List.mem_cons_of_mem p (ih k h1)

/-- Keys of the flattened remainder are never promoted. -/
theorem tagRemainder_keys_not_promoted (promoted : List String) :
    ∀ (tags : List (String × PyVal)) (k : String),
      k ∈ (tagRemainder promoted tags).map Prod.fst → k ∉ promoted := by
  intro tags
  induction tags with
  | nil => intro k h; simp [tagRemainder] at h
  | cons kv rest ih =>
    intro k h
    rw [tagRemainder] at h
    by_cases hp : kv.1 ∈ promoted
    · rw [if_pos hp] at h
      exact ih k h
    · rw [if_neg hp] at h
      cases hu : _unicodify kv.2 with
      | none =>
        rw [hu] at h
        exact ih k h
      | some u =>
        rw [hu] at h
        simp only [List.map_cons, List.mem_cons] at h
        rcases h with h1 | h1
        · exact h1 ▸ hp
        · exact ih k h1

/-- A key absent from the tag mapping is absent from its remainder. -/
theorem lookup_tagRemainder_not_mem (promoted : List String) :
    ∀ (tags : List (String × PyVal)) (k : String),
      k ∉ tags.map Prod.fst →
      (tagRemainder promoted tags).lookup k = Option.none := by
  intro tags
  induction tags with
  | nil => intro k _; rfl
  | cons kv rest ih =>
    intro k hk
    have hne : kv.1 ≠ k := fun h => hk (by simp [h])
    have hrest : k ∉ rest.map Prod.fst := fun h => hk (by simp [h])
    rw [tagRemainder]
    by_cases hp : kv.1 ∈ promoted
    · rw [if_pos hp]; exact ih k hrest
    · rw [if_neg hp]
      cases hu : _unicodify kv.2 with
      | none => exact ih k hrest
      | some u =>
        rw [List.lookup_cons]
        have hb : (k == kv.1) = false := by simp [Ne.symm hne]
        simp [hb, ih k hrest]

/-- Lookup in the flattened remainder: promoted keys are excluded; any
other key carries exactly the representable value of the source mapping. -/
theorem lookup_tagRemainder (promoted : List String) :
    ∀ (tags : List (String × PyVal)) (k : String),
      (tags.map Prod.fst).Nodup →
      (tagRemainder promoted tags).lookup k =
        if k ∈ promoted then Option.none
        else (tags.lookup k).bind _unicodify := by
  intro tags
  induction tags with
  | nil =>
    intro k _
    by_cases hp : k ∈ promoted <;> simp [tagRemainder, List.lookup, hp]
  | cons kv rest ih =>
    intro k hnodup
    rw [List.map_cons, List.nodup_cons] at hnodup
    obtain ⟨hhd, hrest⟩ := hnodup
    rw [tagRemainder]
    by_cases hk : kv.1 = k
    · subst hk
      by_cases hp : kv.1 ∈ promoted
      · rw [if_pos hp, lookup_tagRemainder_not_mem promoted rest kv.1 hhd,
          if_pos hp]
      · rw [if_neg hp]
        cases hu : _unicodify kv.2 with
        | none =>
          rw [lookup_tagRemainder_not_mem promoted rest kv.1 hhd, if_neg hp,
            List.lookup_cons]
          simp [hu]
        | some u =>
          rw [List.lookup_cons, List.lookup_cons]
          simp [hu, hp]
    · have hb : (k == kv.1) = false := by
        simp only [beq_eq_false_iff_ne, ne_eq]
        exact fun h => hk h.symm
      by_cases hp : kv.1 ∈ promoted
      · rw [if_pos hp, ih k hrest, List.lookup_cons]
        simp [hb]
      · rw [if_neg hp]
        cases hu : _unicodify kv.2 with
        | none =>
          rw [ih k hrest, List.lookup_cons]
          simp [hb]
        | some u =>
          rw [List.lookup_cons, List.lookup_cons, ih k hrest]
          simp [hb]

/-- Lookup among the promoted extractions: exactly the promoted keys are
there, carrying the representable value of the source mapping. -/
theorem lookup_promoted_model (tags : List (String × PyVal)) :
    ∀ (promoted : List String) (k : String),
      (extract_promoted_tags_model tags promoted).lookup k =
        if k ∈ promoted then (tags.lookup k).bind _unicodify
        else Option.none := by
  intro promoted
  induction promoted with
  | nil => intro k; simp [extract_promoted_tags_model]
  | cons p rest ih =>
    intro k
    by_cases hk : p = k
    · subst hk
      cases hu : (tags.lookup p).bind _unicodify with
      | none =>
        simp only [extract_promoted_tags_model, hu]
        rw [ih p]
        by_cases hp : p ∈ rest <;> simp [hp, hu]
      | some u =>
        simp only [extract_promoted_tags_model, hu]
        rw [List.lookup_cons]
        simp [hu]
    · cases hu : (tags.lookup p).bind _unicodify with
      | none =>
        simp only [extract_promoted_tags_model, hu]
        rw [ih k]
        by_cases hkr : k ∈ rest <;> simp [hkr, hk, Ne.symm hk]
      | some u =>
        have hb : (k == p) = false := by
          simp only [beq_eq_false_iff_ne, ne_eq]
          exact fun h => hk h.symm
        simp only [extract_promoted_tags_model, hu]
        rw [List.lookup_cons, ih k]
        by_cases hkr : k ∈ rest <;> simp [hkr, hk, Ne.symm hk, hb]

/-- The parallel key/value arrays zip back to the remainder pair list. -/
theorem extra_tags_zip (promoted : List String) (tags : List (String × PyVal)) :
    (extract_extra_tags promoted tags).1.zip (extract_extra_tags promoted tags).2 =
      tagRemainder promoted tags := by
  show ((tagRemainder promoted tags).map Prod.fst).zip
      ((tagRemainder promoted tags).map Prod.snd) = tagRemainder promoted tags
  rw [List.zip_map']
  simp

/-- C2: for every tag mapping, the union of the promoted-column values
extracted and the entries of the `tags.key`/`tags.value` arrays exactly
reconstructs the original mapping, modulo entries whose value is not
representable as a scalar (which are dropped); and no key appears both in
a promoted column and in the `tags.key` array of the same row. -/
theorem C2_tag_flattening_reconstruction
    (promoted : List String) (tags : List (String × PyVal))
    (hnodup : (tags.map Prod.fst).Nodup) :
    (∀ k, k ∈ (extract_promoted_tags_model tags promoted).map Prod.fst →
      k ∉ (extract_extra_tags promoted tags).1) ∧
    (∀ k : String,
      (match (extract_promoted_tags_model tags promoted).lookup k with
       | some v => some v
       | Option.none =>
         ((extract_extra_tags promoted tags).1.zip
           (extract_extra_tags promoted tags).2).lookup k)
        = (tags.lookup k).bind _unicodify) := by
  constructor
  · intro k hkp hke
    exact tagRemainder_keys_not_promoted promoted tags k hke
      (promoted_model_keys_subset tags promoted k hkp)
  · intro k
    rw [extra_tags_zip, lookup_promoted_model tags promoted k,
      lookup_tagRemainder promoted tags k hnodup]
    by_cases hp : k ∈ promoted
    · simp only [if_pos hp]
      cases (tags.lookup k).bind _unicodify <;> rfl
    · simp [hp]

/-- C2 witness: the reconstruction theorem at the concrete mapping
`{"env": "prod", "level": "error", "junk": [], "n": 7}` with promoted set
`{"level", "release"}` — `level` lands only in its promoted column, `env`
and `n` only in the arrays, the unrepresentable `junk` is dropped, and
every key reads back to its original representable value. -/
theorem C2_tag_flattening_reconstruction_witness :
    (∀ k, k ∈ (extract_promoted_tags_model
        [("env", PyVal.str "prod"), ("level", PyVal.str "error"),
         ("junk", PyVal.list []), ("n", PyVal.int 7)]
        ["level", "release"]).map Prod.fst →
      k ∉ (extract_extra_tags ["level", "release"]
        [("env", PyVal.str "prod"), ("level", PyVal.str "error"),
         ("junk", PyVal.list []), ("n", PyVal.int 7)]).1) ∧
    (∀ k : String,
      (match (extract_promoted_tags_model
          [("env", PyVal.str "prod"), ("level", PyVal.str "error"),
           ("junk", PyVal.list []), ("n", PyVal.int 7)]
          ["level", "release"]).lookup k with
       | some v => some v
       | Option.none =>
         ((extract_extra_tags ["level", "release"]
            [("env", PyVal.str "prod"), ("level", PyVal.str "error"),
             ("junk", PyVal.list []), ("n", PyVal.int 7)]).1.zip
           (extract_extra_tags ["level", "release"]
            [("env", PyVal.str "prod"), ("level", PyVal.str "error"),
             ("junk", PyVal.list []), ("n", PyVal.int 7)]).2).lookup k)
        = ((List.lookup k
            [("env", PyVal.str "prod"), ("level", PyVal.str "error"),
             ("junk", PyVal.list []), ("n", PyVal.int 7)]).bind _unicodify)) :=
  C2_tag_flattening_reconstruction ["level", "release"]
    [("env", PyVal.str "prod"), ("level", PyVal.str "error"),
     ("junk", PyVal.list []), ("n", PyVal.int 7)]
    (by simp)

/-! ### C7 -/

/-- The total frame count across all stacks (null stacks and null frames
are skipped, as the code skips them). -/
def totalFrameCount (stackList : List PyVal) : Nat :=
  (stackList.map (fun s =>
    if s.isNone then 0
    else (framesOfStack s).countP (fun f => ! f.isNone))).sum

/-- The frame loop records the current stack level once per non-null
frame. -/
theorem framesLoop_stack_levels (frames : List PyVal) (lvl : Int) :
    (framesLoop frames lvl).stack_levels =
      List.replicate (frames.countP (fun f => ! f.isNone)) lvl := by
  induction frames with
  | nil => rfl
  | cons f rest ih =>
    rw [framesLoop]
    by_cases hf : f.isNone
    · simp [hf, List.countP_cons, ih]
    · simp only [hf, if_false, Bool.not_false]
      rw [List.countP_cons]
      simp [hf, ih, List.replicate_succ]

/-- The stack loop's `stack_level` entries: one per non-null frame, each
between the starting level and the starting level plus the number of
non-null stacks. -/
theorem stacksLoop_stack_levels (stackList : List PyVal) :
    ∀ lvl : Int,
      ((stacksLoop stackList lvl).frames.stack_levels).length =
        totalFrameCount stackList ∧
      ∀ l ∈ (stacksLoop stackList lvl).frames.stack_levels,
        lvl ≤ l ∧
        l < lvl + (stackList.countP (fun s => ! s.isNone) : Int) := by
  induction stackList with
  | nil =>
    intro lvl
    exact ⟨rfl, by intro l hl; simp [stacksLoop, StacktraceData.empty,
      FrameData.empty] at hl⟩
  | cons stack rest ih =>
    intro lvl
    rw [stacksLoop]
    by_cases hs : stack.isNone
    · rw [if_pos hs]
      refine ⟨?_, ?_⟩
      · rw [(ih lvl).1]
        simp [totalFrameCount, hs]
      · intro l hl
        have h := (ih lvl).2 l hl
        rw [List.countP_cons]
        simp only [hs, Bool.not_true]
        omega
    · rw [if_neg hs]
      have hlev := framesLoop_stack_levels (framesOfStack stack) lvl
      refine ⟨?_, ?_⟩
      · simp only [FrameData.append, List.length_append, hlev,
          List.length_replicate, (ih (lvl + 1)).1]
        simp [totalFrameCount, hs]
      · intro l hl
        simp only [FrameData.append, List.mem_append, hlev] at hl
        rw [List.countP_cons]
        simp only [hs, Bool.not_false, if_true, Nat.cast_add, Nat.cast_one]
        rcases hl with hl | hl
        · have := List.eq_of_mem_replicate hl
          subst this
          have hc : (0 : Int) ≤ (rest.countP (fun s => ! s.isNone) : Int) := by
            positivity
          omega
        · have h := (ih (lvl + 1)).2 l hl
          omega

/-- C7: for a project not on the stack-trace denylist, the produced
`exception_frames.stack_level` array has exactly one entry per (non-null)
frame across all (non-null) stacks, and every entry is a zero-based
enclosing-stack index within `[0, len(stacks) - 1]`. -/
theorem C7_stack_level_invariant
    (ext : Externals) (output : Row) (stackList : List PyVal) (pid : Int)
    (hpid : output.get "project_id" = some (PyVal.int pid))
    (hbl : pid ∉ ext.stacktrace_blacklist) :
    (extract_stacktraces ext output stackList).get "exception_frames.stack_level"
      = some (PyVal.list
          (((stacksLoop stackList 0).frames.stack_levels).map PyVal.int)) ∧
    ((stacksLoop stackList 0).frames.stack_levels).length =
      totalFrameCount stackList ∧
    ∀ l ∈ (stacksLoop stackList 0).frames.stack_levels,
      0 ≤ l ∧ l ≤ (stackList.length : Int) - 1 := by
  have hc : ext.stacktrace_blacklist.contains pid = false := by
    cases h : ext.stacktrace_blacklist.contains pid
    · rfl
    · exact absurd (List.mem_of_elem_eq_true h) hbl
  refine ⟨?_, (stacksLoop_stack_levels stackList 0).1, ?_⟩
  · rw [extract_stacktraces, hpid]
    simp only [hc, if_false]
    rfl
  · intro l hl
    have h := (stacksLoop_stack_levels stackList 0).2 l hl
    have hle : stackList.countP (fun s => ! s.isNone) ≤ stackList.length :=
      List.countP_le_length _
    have hcast : (stackList.countP (fun s => ! s.isNone) : Int) ≤
        (stackList.length : Int) := by exact_mod_cast hle
    omega

/-- C7 witness: the invariant at a concrete stack list — two real stacks
(with 2 and 1 non-null frames) around a null stack entry — for a row of
project 7 against the fixture denylist `[1, 2]`. -/
theorem C7_stack_level_invariant_witness :
    ((extract_stacktraces extFix [("project_id", PyVal.int 7)]
        [ PyVal.dict [("type", PyVal.str "E"),
            ("stacktrace", PyVal.dict [("frames",
              PyVal.list [PyVal.dict [("lineno", PyVal.int 3)], PyVal.none,
                PyVal.dict []])])],
          PyVal.none,
          PyVal.dict [("stacktrace", PyVal.dict [("frames",
            PyVal.list [PyVal.dict [("colno", PyVal.int 1)]])])] ]).get
      "exception_frames.stack_level"
      = some (PyVal.list
          (((stacksLoop
              [ PyVal.dict [("type", PyVal.str "E"),
                  ("stacktrace", PyVal.dict [("frames",
                    PyVal.list [PyVal.dict [("lineno", PyVal.int 3)], PyVal.none,
                      PyVal.dict []])])],
                PyVal.none,
                PyVal.dict [("stacktrace", PyVal.dict [("frames",
                  PyVal.list [PyVal.dict [("colno", PyVal.int 1)]])])] ]
              0).frames.stack_levels).map PyVal.int))) ∧
    ((stacksLoop
        [ PyVal.dict [("type", PyVal.str "E"),
            ("stacktrace", PyVal.dict [("frames",
              PyVal.list [PyVal.dict [("lineno", PyVal.int 3)], PyVal.none,
                PyVal.dict []])])],
          PyVal.none,
          PyVal.dict [("stacktrace", PyVal.dict [("frames",
            PyVal.list [PyVal.dict [("colno", PyVal.int 1)]])])] ]
        0).frames.stack_levels).length =
      totalFrameCount
        [ PyVal.dict [("type", PyVal.str "E"),
            ("stacktrace", PyVal.dict [("frames",
              PyVal.list [PyVal.dict [("lineno", PyVal.int 3)], PyVal.none,
                PyVal.dict []])])],
          PyVal.none,
          PyVal.dict [("stacktrace", PyVal.dict [("frames",
            PyVal.list [PyVal.dict [("colno", PyVal.int 1)]])])] ] :=
  ⟨(C7_stack_level_invariant extFix [("project_id", PyVal.int 7)] _ 7 rfl
      (by decide)).1,
   (C7_stack_level_invariant extFix [("project_id", PyVal.int 7)] _ 7 rfl
      (by decide)).2.1⟩

/-! ### C8 -/

/-- Every expression node has positive depth. -/
theorem Expression.depth_pos (e : Expression) : 1 ≤ e.depth := by
  cases e <;> simp [Expression.depth]

/-- `process_column` leaves any node alone that is not a subscript access
on a configured family. -/
theorem process_column_eq_self (p : SingleTagProcessor) (e : Expression)
    (h : ∀ al col key, e = Expression.nestedColumn al col key →
      col ∉ p.nested_column_names) :
    process_column p e = e := by
  cases e with
  | nestedColumn al col key =>
    rw [process_column]
    rw [if_neg (h al col key rfl)]
  | column al c t => rfl
  | literal al v => rfl
  | functionCall al nm ps => rfl

/-- Rewriting a non-function-call node yields a tree with no subscript
access on a configured family anywhere in it. -/
theorem process_column_result_noTag (p : SingleTagProcessor) (e : Expression)
    (hne : ∀ al nm ps, e ≠ Expression.functionCall al nm ps) :
    (process_column p e).noTagAccess p = true := by
  cases e with
  | column al c t => rfl
  | literal al v => rfl
  | functionCall al nm ps => exact absurd rfl (hne al nm ps)
  | nestedColumn al col key =>
    rw [process_column]
    by_cases hf : col ∈ p.nested_column_names
    · rw [if_pos hf]
      rcases hlp : p.promoted_columns.lookup col with _ | pset
      · simp [array_element, Expression.noTagAccess, ExpressionList.noTagAccess]
      · by_cases hmem :
            (((p.key_column_map.lookup col).getD []).lookup key).getD key ∈ pset
        · rcases hct : p.columns.lookup
              ((((p.key_column_map.lookup col).getD []).lookup key).getD key)
            with _ | t
          · simp [hmem, hct, Expression.noTagAccess, ExpressionList.noTagAccess]
          · by_cases hts : strContains t "String" && ! strContains t "FixedString"
            · simp [hmem, hct, hts, Expression.noTagAccess]
            · simp [hmem, hct, hts, Expression.noTagAccess,
                ExpressionList.noTagAccess]
        · simp [hmem, array_element, Expression.noTagAccess,
            ExpressionList.noTagAccess]
    · rw [if_neg hf]
      simp [Expression.noTagAccess, hf]

/-- A rewritten non-function-call node has depth at most 3 (the deepest
result is `arrayElement(F.value, indexOf(F.key, K))`). -/
theorem process_column_result_depth (p : SingleTagProcessor) (e : Expression)
    (hne : ∀ al nm ps, e ≠ Expression.functionCall al nm ps) :
    (process_column p e).depth ≤ 3 := by
  cases e with
  | column al c t =>
    rw [process_column_eq_self p _ (fun _ _ _ h => Expression.noConfusion h)]
    simp [Expression.depth]
  | literal al v =>
    rw [process_column_eq_self p _ (fun _ _ _ h => Expression.noConfusion h)]
    simp [Expression.depth]
  | functionCall al nm ps => exact absurd rfl (hne al nm ps)
  | nestedColumn al col key =>
    rw [process_column]
    by_cases hf : col ∈ p.nested_column_names
    · rw [if_pos hf]
      rcases hlp : p.promoted_columns.lookup col with _ | pset
      · simp [array_element, Expression.depth, ExpressionList.depthMax]
      · by_cases hmem :
            (((p.key_column_map.lookup col).getD []).lookup key).getD key ∈ pset
        · rcases hct : p.columns.lookup
              ((((p.key_column_map.lookup col).getD []).lookup key).getD key)
            with _ | t
          · simp [hmem, hct, Expression.depth, ExpressionList.depthMax]
          · by_cases hts : strContains t "String" && ! strContains t "FixedString"
            · simp [hmem, hct, hts, Expression.depth]
            · simp [hmem, hct, hts, Expression.depth, ExpressionList.depthMax]
        · simp [hmem, array_element, Expression.depth, ExpressionList.depthMax]
    · rw [if_neg hf]
      simp [Expression.depth]

/-- Bool `contains` on a string list is false exactly on non-members. -/
theorem string_contains_false {l : List String} {a : String} :
    l.contains a = false ↔ a ∉ l := by
  constructor
  · intro hf hm
    have hf2 : List.elem a l = false := hf
    rw [List.elem_eq_true_of_mem hm] at hf2
    cases hf2
  · intro hnm
    cases hcc : l.contains a
    · rfl
    · exact absurd (List.mem_of_elem_eq_true hcc) hnm

mutual

/-- On a tree with no configured subscript access, the pre-order traversal
with enough fuel is the identity. -/
theorem preFuel_stable (p : SingleTagProcessor) :
    ∀ (e : Expression) (n : Nat), e.noTagAccess p = true → e.depth ≤ n →
      transformPreFuel (process_column p) n e = e
  | e, 0, _, hd => absurd hd (by have := e.depth_pos; omega)
  | Expression.column a c t, n+1, _, _ => by
      simp only [transformPreFuel, process_column]
  | Expression.literal a v, n+1, _, _ => by
      simp only [transformPreFuel, process_column]
  | Expression.nestedColumn a c k, n+1, h, _ => by
      have hc : c ∉ p.nested_column_names := by
        have h2 : p.nested_column_names.contains c = false := by
          simpa [Expression.noTagAccess] using h
        exact string_contains_false.mp h2
      have hpc : process_column p (Expression.nestedColumn a c k) =
          Expression.nestedColumn a c k :=
        process_column_eq_self p _ (fun al2 col2 key2 heq => by
          cases heq; exact hc)
      simp only [transformPreFuel, hpc]
  | Expression.functionCall a nm ps, n+1, h, hd => by
      have hfc : process_column p (Expression.functionCall a nm ps) =
          Expression.functionCall a nm ps := rfl
      have hlist : ExpressionList.noTagAccess p ps = true := by
        simpa [Expression.noTagAccess] using h
      have hdm : ExpressionList.depthMax ps ≤ n := by
        have hde : (Expression.functionCall a nm ps).depth =
            1 + ExpressionList.depthMax ps := rfl
        omega
      simp only [transformPreFuel, hfc]
      rw [preFuelList_stable p ps n hlist hdm]

/-- List version of `preFuel_stable`. -/
theorem preFuelList_stable (p : SingleTagProcessor) :
    ∀ (es : ExpressionList) (n : Nat),
      ExpressionList.noTagAccess p es = true →
      ExpressionList.depthMax es ≤ n →
      transformPreFuelList (process_column p) n es = es
  | ExpressionList.nil, _, _, _ => by
      simp only [transformPreFuelList]
  | ExpressionList.cons e es, n, h, hd => by
      have h1 : e.noTagAccess p = true ∧ ExpressionList.noTagAccess p es = true := by
        simpa [ExpressionList.noTagAccess, Bool.and_eq_true] using h
      have hde : ExpressionList.depthMax (ExpressionList.cons e es) =
          max e.depth (ExpressionList.depthMax es) := rfl
      have hd1 : e.depth ≤ n := le_trans (le_max_left _ _) (hde ▸ hd)
      have hd2 : ExpressionList.depthMax es ≤ n :=
        le_trans (le_max_right _ _) (hde ▸ hd)
      simp only [transformPreFuelList]
      rw [preFuel_stable p e n h1.1 hd1, preFuelList_stable p es n h1.2 hd2]

end

mutual

/-- Pre-order traversal (with enough fuel) and post-order traversal of the
rewriter agree on every tree: the rewrite is local and creates no new
rewritable nodes, so traversal order does not matter. -/
theorem preFuel_eq_post (p : SingleTagProcessor) :
    ∀ (e : Expression) (n : Nat), e.depth + 2 ≤ n →
      transformPreFuel (process_column p) n e =
        transformPost (process_column p) e
  | e, 0, h => absurd h (by have := e.depth_pos; omega)
  | Expression.column a c t, n+1, _ => by
      simp only [transformPreFuel, transformPost, process_column]
  | Expression.literal a v, n+1, _ => by
      simp only [transformPreFuel, transformPost, process_column]
  | Expression.nestedColumn a c k, n+1, h => by
      have hpost : transformPost (process_column p)
          (Expression.nestedColumn a c k) =
          process_column p (Expression.nestedColumn a c k) := by
        simp only [transformPost]
      have hstab := process_column_result_noTag p (Expression.nestedColumn a c k)
        (fun _ _ _ heq => Expression.noConfusion heq)
      have hdep := process_column_result_depth p (Expression.nestedColumn a c k)
        (fun _ _ _ heq => Expression.noConfusion heq)
      rw [hpost]
      simp only [transformPreFuel]
      rcases hres : process_column p (Expression.nestedColumn a c k) with
        ⟨a2, c2, t2⟩ | ⟨a2, v2⟩ | ⟨a2, nm2, ps2⟩ | ⟨a2, c2, k2⟩
      · rfl
      · rfl
      · rw [hres] at hstab hdep
        have hlist : ExpressionList.noTagAccess p ps2 = true := by
          simpa [Expression.noTagAccess] using hstab
        have hdm : ExpressionList.depthMax ps2 ≤ n := by
          have hd2 : (Expression.functionCall a2 nm2 ps2).depth =
              1 + ExpressionList.depthMax ps2 := by simp only [Expression.depth]
          have hd3 : (Expression.nestedColumn a c k).depth = 1 := by
            simp only [Expression.depth]
          rw [hd2] at hdep
          rw [hd3] at h
          omega
        have hps : transformPreFuelList (process_column p) n ps2 = ps2 :=
          preFuelList_stable p ps2 n hlist hdm
        simp only [hps]
      · rfl

  | Expression.functionCall a nm ps, n+1, h => by
      have hfc2 : process_column p (Expression.functionCall a nm ps) =
          Expression.functionCall a nm ps := by simp only [process_column]
      have hfc : process_column p (Expression.functionCall a nm
          (transformPostList (process_column p) ps)) =
          Expression.functionCall a nm
            (transformPostList (process_column p) ps) := by
        simp only [process_column]
      have hdm : ExpressionList.depthMax ps + 2 ≤ n := by
        have hde : (Expression.functionCall a nm ps).depth =
            1 + ExpressionList.depthMax ps := by simp only [Expression.depth]
        omega
      simp only [transformPreFuel, transformPost, hfc, hfc2]
      rw [preFuelList_eq_post p ps n hdm]

/-- List version of `preFuel_eq_post`. -/
theorem preFuelList_eq_post (p : SingleTagProcessor) :
    ∀ (es : ExpressionList) (n : Nat),
      ExpressionList.depthMax es + 2 ≤ n →
      transformPreFuelList (process_column p) n es =
        transformPostList (process_column p) es
  | ExpressionList.nil, n, _ => by
      simp only [transformPreFuelList, transformPostList]
  | ExpressionList.cons e es, n, h => by
      have hde : ExpressionList.depthMax (ExpressionList.cons e es) =
          max e.depth (ExpressionList.depthMax es) := by
        simp only [ExpressionList.depthMax]
      rw [hde] at h
      have h1 : e.depth + 2 ≤ n := by
        have := le_max_left e.depth (ExpressionList.depthMax es)
        omega
      have h2 : ExpressionList.depthMax es + 2 ≤ n := by
        have := le_max_right e.depth (ExpressionList.depthMax es)
        omega
      simp only [transformPreFuelList, transformPostList]
      rw [preFuel_eq_post p e n h1, preFuelList_eq_post p es n h2]

end

/-- C8: every node that is not a subscript access (`NestedColumn`) on a
configured family is returned unchanged by the rewriter; and the result of
`process_query` does not depend on the traversal order of the tree — the
pre-order traversal (any sufficient fuel) and the post-order traversal it
uses produce the same tree, rewrites being local and non-overlapping. -/
theorem C8_untouched_nodes_and_order_independence (p : SingleTagProcessor) :
    (∀ e : Expression,
      (∀ al col key, e = Expression.nestedColumn al col key →
        col ∉ p.nested_column_names) →
      process_column p e = e) ∧
    (∀ (e : Expression) (n : Nat), e.depth + 2 ≤ n →
      transformPreFuel (process_column p) n e = p.process_query e) :=
  ⟨fun e h => process_column_eq_self p e h,
   fun e n hn => preFuel_eq_post p e n hn⟩

/-- C8 witness: in the fixture configuration a literal node is untouched,
and on a concrete tree containing a rewritable subscript the pre-order
traversal with fuel 4 equals `process_query`. -/
theorem C8_untouched_nodes_and_order_independence_witness :
    process_column procFix (Expression.literal Option.none "x") =
      Expression.literal Option.none "x" ∧
    transformPreFuel (process_column procFix) 4
        (Expression.functionCall (some "f") "equals"
          (ExpressionList.cons
            (Expression.nestedColumn (some "t") "tags" "env")
            (ExpressionList.cons (Expression.literal Option.none "prod")
              ExpressionList.nil))) =
      procFix.process_query
        (Expression.functionCall (some "f") "equals"
          (ExpressionList.cons
            (Expression.nestedColumn (some "t") "tags" "env")
            (ExpressionList.cons (Expression.literal Option.none "prod")
              ExpressionList.nil))) :=
  ⟨(C8_untouched_nodes_and_order_independence procFix).1 _
      (fun _ _ _ h => Expression.noConfusion h),
   (C8_untouched_nodes_and_order_independence procFix).2 _ 4
      (by simp [Expression.depth, ExpressionList.depthMax])⟩
